import Mathlib

/-!
Verification of `greenStrain.py` (abaqus-greenStrain): a shallow embedding of
the numerical core — `quat2matrix`, `tensor2` and `green` — together with
proofs of the specified properties.

Modelling choices:
* A numpy 2-D float array is modelled by `NDArray`: an explicit `shape` list
  (so `len(A.shape)` and `A.shape[1]` are expressible, including the
  zero-row case `(0,6)`) and a row-major flattened `data` list of rationals.
  Rationals stand in for IEEE doubles; every operation in the source is
  `+`, `-`, `*` or division by 2, and the specified example values are all
  dyadic, so the algebra is faithfully represented.
* Python `assert cond, msg` is modelled by `Except String`: a failed
  assertion produces `.error msg`.
* The in-place column updates (`V[:, 3:] /= 2` etc.) act row-wise on a
  well-shaped `(N,6)` array; `NDArray.mapColsFrom` and `NDArray.mapColsUpTo`
  apply a function to the entries of the selected columns of every row.
-/

/-- Model of a numpy 2-D (or general n-D) float array: explicit shape plus
row-major flattened data, entries as rationals. -/
structure NDArray where
  shape : List Nat
  data : List ℚ
deriving DecidableEq

instance : DecidableEq (Except String NDArray) :=
  fun a b =>
    match a, b with
    | .ok x, .ok y => decidable_of_iff (x = y) (by simp)
    | .error e, .error f => decidable_of_iff (e = f) (by simp)
    | .ok _, .error _ => .isFalse (by simp)
    | .error _, .ok _ => .isFalse (by simp)

/-- `len(A.shape)`: number of dimensions. -/
def NDArray.ndim (A : NDArray) : Nat := A.shape.length

/-- `A.shape[0]`: number of rows of a 2-D array. -/
def NDArray.nrows (A : NDArray) : Nat := A.shape.headD 0

/-- `A.shape[1]`: number of columns of a 2-D array. -/
def NDArray.ncols (A : NDArray) : Nat := A.shape.getD 1 0

/-- The rows of a 2-D array, recovered from the row-major flattened data. -/
def NDArray.rows (A : NDArray) : List (List ℚ) :=
  (List.range A.nrows).map fun i => (A.data.drop (i * A.ncols)).take A.ncols

/-- Apply `f` to every entry of every row from column `k` on: the model of
the numpy in-place column-slice update `V[:, k:] op= c`. -/
def NDArray.mapColsFrom (A : NDArray) (k : Nat) (f : ℚ → ℚ) : NDArray :=
  ⟨A.shape, (A.rows.map fun r => r.take k ++ (r.drop k).map f).flatten⟩

/-- Apply `f` to every entry of every row before column `k`: the model of
the numpy in-place column-slice update `V[:, :k] op= c`. -/
def NDArray.mapColsUpTo (A : NDArray) (k : Nat) (f : ℚ → ℚ) : NDArray :=
  ⟨A.shape, (A.rows.map fun r => (r.take k).map f ++ r.drop k).flatten⟩

/-- `np.zeros((n, c))`. -/
def NDArray.zeros (n c : Nat) : NDArray := ⟨[n, c], List.replicate (n * c) 0⟩

/-- One quaternion row `[q1, q2, q3, q0]` (components ordered x, y, z, w)
mapped to the nine row-major entries of its rotation matrix, exactly the
nine expressions listed in `quat2matrix` (source lines 76–80). -/
def quatRow (r : List ℚ) : List ℚ :=
  match r with
  | [q1, q2, q3, q0] =>
    [ 1 - 2*q2*q2 - 2*q3*q3,  2*q1*q2 - 2*q0*q3,  2*q1*q3 + 2*q0*q2,
      2*q1*q2 + 2*q0*q3,  1 - 2*q1*q1 - 2*q3*q3,  2*q2*q3 - 2*q0*q1,
      2*q1*q3 - 2*q0*q2,  2*q2*q3 + 2*q0*q1,  1 - 2*q1*q1 - 2*q2*q2 ]
  | _ => []

/-- `quat2matrix(quatArray)` (source lines 55–80): assert the input is a 2-D
array of 4-component rows, then build the `(N,3,3)` array whose `i`-th 3×3
matrix holds the nine `quatRow` entries of the `i`-th quaternion. -/
def quat2matrix (quatArray : NDArray) : Except String NDArray :=
  if quatArray.ndim ≠ 2 then .error "Must be a 2D array"
  else if quatArray.ncols ≠ 4 then .error "Must be an array of quaternions"
  else .ok ⟨[quatArray.nrows, 3, 3], (quatArray.rows.map quatRow).flatten⟩

/-- One packed symmetric-tensor row `[a11, a22, a33, a12, a13, a23]` mapped to
the packed row of its matrix self-product: the six assignments of `tensor2`
(source lines 100–105), with the symmetry aliases `t21 = t12`, `t31 = t13`,
`t32 = t23` substituted. -/
def tensor2Row (r : List ℚ) : List ℚ :=
  match r with
  | [a11, a22, a33, a12, a13, a23] =>
    [ a11*a11 + a12*a12 + a13*a13,
      a12*a12 + a22*a22 + a23*a23,
      a13*a13 + a23*a23 + a33*a33,
      a11*a12 + a12*a22 + a13*a23,
      a11*a13 + a12*a23 + a13*a33,
      a12*a13 + a22*a23 + a23*a33 ]
  | _ => []

/-- `tensor2(A)` (source lines 83–106): assert the input is a 2-D array with
6 columns, then fill a same-shaped result with the packed self-product of
every row. -/
def tensor2 (A : NDArray) : Except String NDArray :=
  if A.ndim ≠ 2 then .error "Data must be a 2D array of tensors"
  else if A.ncols ≠ 6 then .error "Data elements must be in Abaqus symmetric tensor format"
  else .ok ⟨A.shape, (A.rows.map tensor2Row).flatten⟩

/-- `green(NEarray)` (source lines 109–130): assert shape `(N,6)`, copy the
input into `V`, divide the shear columns 3,4,5 by 2, add 1 to the normal
columns 0,1,2, take the self-product via `tensor2`, subtract 1 from the
normal columns and halve them. (Values are immutable here, so the
`NEarray.copy()` is the identity; the aliasing consequence of the copy is
modelled separately by `greenStore`.) -/
def green (NEarray : NDArray) : Except String NDArray :=
  if NEarray.ndim ≠ 2 then .error "NEarray must be a 2D array of tensors"
  else if NEarray.ncols ≠ 6 then .error "NEarray elements must be in Abaqus symmetric tensor format"
  else
    let V := NEarray
    let V := V.mapColsFrom 3 (fun x => x / 2)
    let V := V.mapColsUpTo 3 (fun x => x + 1)
    match tensor2 V with
    | .error e => .error e
    | .ok W =>
      let W := W.mapColsUpTo 3 (fun x => x - 1)
      let W := W.mapColsUpTo 3 (fun x => x / 2)
      .ok W

/-- Well-formedness of the model: `A` is a genuine `(n, c)` array — the shape
says so and the flattened data has exactly `n * c` entries. -/
def NDArray.wf2 (A : NDArray) (n c : Nat) : Prop :=
  A.shape = [n, c] ∧ A.data.length = n * c

/-- Row-level form of `V[:, 3:] /= 2` (source line 124): divide the three
shear components (indices 3, 4, 5) by 2. -/
def rowShearHalf (r : List ℚ) : List ℚ := r.take 3 ++ (r.drop 3).map fun x => x / 2

/-- Row-level form of `V[:, :3] += 1` (source line 125): add 1.0 to the three
normal components (indices 0, 1, 2). -/
def rowAddIdentity (r : List ℚ) : List ℚ := (r.take 3).map (fun x => x + 1) ++ r.drop 3

/-- Row-level form of `V[:, :3] -= 1` (source line 128): subtract 1.0 from the
three normal components. -/
def rowSubIdentity (r : List ℚ) : List ℚ := (r.take 3).map (fun x => x - 1) ++ r.drop 3

/-- Row-level form of `V[:, :3] /= 2` (source line 129): divide the three
normal components by 2, leaving the shear components unchanged. -/
def rowHalfNormals (r : List ℚ) : List ℚ := (r.take 3).map (fun x => x / 2) ++ r.drop 3

/-- The whole `green` pipeline on a single row: source lines 124–129 in
order. -/
def greenRow (r : List ℚ) : List ℚ :=
  rowHalfNormals (rowSubIdentity (tensor2Row (rowAddIdentity (rowShearHalf r))))

/-- A heap of arrays addressed in allocation order, used to model which numpy
arrays share storage during `green`: `NEarray.copy()` (source line 122)
allocates a fresh array, the in-place slice updates write back through the
reference being updated, and `np.empty_like` inside `tensor2` (source line
96) allocates the result fresh. -/
structure Store where
  arrays : List NDArray

def Store.read (s : Store) (i : Nat) : NDArray := s.arrays.getD i ⟨[], []⟩

def Store.write (s : Store) (i : Nat) (A : NDArray) : Store := ⟨s.arrays.set i A⟩

def Store.alloc (s : Store) (A : NDArray) : Store × Nat :=
  (⟨s.arrays ++ [A]⟩, s.arrays.length)

/-- `tensor2` acting on a stored array (source lines 83–106): validate the
referenced array, then allocate the result fresh and fill it. -/
def tensor2Store (s : Store) (a : Nat) : Except String (Store × Nat) :=
  if (s.read a).ndim ≠ 2 then .error "Data must be a 2D array of tensors"
  else if (s.read a).ncols ≠ 6 then
    .error "Data elements must be in Abaqus symmetric tensor format"
  else .ok (s.alloc ⟨(s.read a).shape, ((s.read a).rows.map tensor2Row).flatten⟩)

/-- `green` with storage made explicit (source lines 109–130): the input is
allocated at one reference, `V = NEarray.copy()` allocates a second, and
every in-place update writes to the reference of `V` (or to the one freshly
allocated by `tensor2`), never to that of the input. Returns the final store plus
the references of the input and of the result. -/
def greenStore (NEarray : NDArray) : Except String (Store × Nat × Nat) :=
  match Store.alloc ⟨[]⟩ NEarray with
  | (s, ne) =>
    if (s.read ne).ndim ≠ 2 then .error "NEarray must be a 2D array of tensors"
    else if (s.read ne).ncols ≠ 6 then
      .error "NEarray elements must be in Abaqus symmetric tensor format"
    else
      match s.alloc (s.read ne) with
      | (s, v) =>
        let s := s.write v ((s.read v).mapColsFrom 3 fun x => x / 2)
        let s := s.write v ((s.read v).mapColsUpTo 3 fun x => x + 1)
        match tensor2Store s v with
        | .error e => .error e
        | .ok (s, w) =>
          let s := s.write w ((s.read w).mapColsUpTo 3 fun x => x - 1)
          let s := s.write w ((s.read w).mapColsUpTo 3 fun x => x / 2)
          .ok (s, ne, w)

/-- Reference unpacking of a packed 6-component row into the full symmetric
3×3 matrix: `M11 = r[0]`, `M22 = r[1]`, `M33 = r[2]`, `M12 = M21 = r[3]`,
`M13 = M31 = r[4]`, `M23 = M32 = r[5]`. -/
def unpack3 (r : List ℚ) (i j : Fin 3) : ℚ :=
  match i.val, j.val with
  | 0, 0 => r.getD 0 0
  | 1, 1 => r.getD 1 0
  | 2, 2 => r.getD 2 0
  | 0, 1 => r.getD 3 0
  | 1, 0 => r.getD 3 0
  | 0, 2 => r.getD 4 0
  | 2, 0 => r.getD 4 0
  | 1, 2 => r.getD 5 0
  | 2, 1 => r.getD 5 0
  | _, _ => 0

/-- Reference full 3×3 matrix multiply, one entry. -/
def matmul3 (M N : Fin 3 → Fin 3 → ℚ) (i j : Fin 3) : ℚ :=
  M i 0 * N 0 j + M i 1 * N 1 j + M i 2 * N 2 j

/-- Pack a symmetric 3×3 matrix back into the 6-component ordering
`(M11, M22, M33, M12, M13, M23)`. -/
def pack3 (M : Fin 3 → Fin 3 → ℚ) : List ℚ :=
  [M 0 0, M 1 1, M 2 2, M 0 1, M 0 2, M 1 2]

/-- Entry `(i, j)` of the 3×3 rotation matrix that `quat2matrix` produces for
the quaternion `(x, y, z, w)` (row-major entry `3 i + j` of `quatRow`). -/
def quatMatAt (x y z w : ℚ) (i j : Fin 3) : ℚ :=
  (quatRow [x, y, z, w]).getD (3 * i.val + j.val) 0

/-- Entry `(i, j)` of the product of the two rotation matrices that
`quat2matrix` produces for quaternions `(x, y, z, w)` and
`(x', y', z', w')`. -/
def quatMatMulAt (x y z w x' y' z' w' : ℚ) (i j : Fin 3) : ℚ :=
  quatMatAt x y z w i 0 * quatMatAt x' y' z' w' 0 j +
    quatMatAt x y z w i 1 * quatMatAt x' y' z' w' 1 j +
    quatMatAt x y z w i 2 * quatMatAt x' y' z' w' 2 j

@[simp] theorem NDArray.ndim_mk (s : List Nat) (d : List ℚ) :
    NDArray.ndim ⟨s, d⟩ = s.length := rfl

@[simp] theorem NDArray.nrows_mk (n c : Nat) (d : List ℚ) :
    NDArray.nrows ⟨[n, c], d⟩ = n := rfl

@[simp] theorem NDArray.ncols_mk (n c : Nat) (d : List ℚ) :
    NDArray.ncols ⟨[n, c], d⟩ = c := rfl

theorem flatten_length_const (rs : List (List ℚ)) (c : Nat)
    (h : ∀ r ∈ rs, r.length = c) : rs.flatten.length = rs.length * c := by
  induction rs with
  | nil => simp
  | cons r t ih =>
    have hr : r.length = c := h r (List.mem_cons_self r t)
    have ht := ih (fun s hs => h s (List.mem_cons_of_mem r hs))
    simp [hr, ht, Nat.succ_mul, Nat.add_comm]

/-- Recovering rows from a flattened list of equal-length rows gives the rows
back. -/
theorem rows_mk_flatten (rs : List (List ℚ)) (c : Nat)
    (h : ∀ r ∈ rs, r.length = c) :
    NDArray.rows ⟨[rs.length, c], rs.flatten⟩ = rs := by
  induction rs with
  | nil => simp [NDArray.rows]
  | cons r t ih =>
    have hr : r.length = c := h r (List.mem_cons_self r t)
    have ht : ∀ s ∈ t, s.length = c := fun s hs => h s (List.mem_cons_of_mem r hs)
    have hstep : ∀ i : Nat,
        ((r ++ t.flatten).drop ((i + 1) * c)).take c = (t.flatten.drop (i * c)).take c := by
      intro i
      have : (i + 1) * c = c + i * c := by ring
      rw [this, ← List.drop_drop, ← hr, List.drop_left]
    have hfirst : ((r ++ t.flatten).drop 0).take c = r := by
      rw [List.drop_zero, ← hr, List.take_left]
    simp only [NDArray.rows, NDArray.nrows_mk, NDArray.ncols_mk, List.length_cons,
      List.flatten_cons] at *
    rw [List.range_succ_eq_map, List.map_cons, List.map_map]
    have h0 : ((r ++ t.flatten).drop (0 * c)).take c = r := by simpa using hfirst
    have hcomp : ((fun i => ((r ++ t.flatten).drop (i * c)).take c) ∘ Nat.succ)
        = fun i => (t.flatten.drop (i * c)).take c := by
      funext i
      simpa [Nat.succ_eq_add_one] using hstep i
    rw [h0, hcomp, ih ht]

theorem wf2_rows_length {A : NDArray} {n c : Nat} (h : A.wf2 n c) :
    A.rows.length = n := by
  simp [NDArray.rows, NDArray.nrows, h.1]

theorem wf2_rows_mem {A : NDArray} {n c : Nat} (h : A.wf2 n c) :
    ∀ r ∈ A.rows, r.length = c := by
  intro r hr
  rcases List.mem_map.mp hr with ⟨i, hi, rfl⟩
  have hi' : i < n := by
    have := List.mem_range.mp hi
    simpa [NDArray.nrows, h.1] using this
  have hcle : c ≤ n * c - i * c := by
    rw [← Nat.sub_mul]
    exact Nat.le_mul_of_pos_left c (by omega)
  simp [List.length_take, List.length_drop, h.2, NDArray.ncols, h.1]
  omega

theorem mapColsFrom_ok (A : NDArray) (n c k : Nat) (f : ℚ → ℚ) (h : A.wf2 n c) :
    (A.mapColsFrom k f).wf2 n c ∧
      (A.mapColsFrom k f).rows = A.rows.map fun r => r.take k ++ (r.drop k).map f := by
  have hlen : A.rows.length = n := wf2_rows_length h
  have hall : ∀ r ∈ A.rows.map (fun r => r.take k ++ (r.drop k).map f), r.length = c := by
    intro r hr
    rcases List.mem_map.mp hr with ⟨s, hs, rfl⟩
    have := wf2_rows_mem h s hs
    simp [List.length_take, List.length_drop, this]
    omega
  have hmk : A.mapColsFrom k f =
      ⟨[(A.rows.map fun r => r.take k ++ (r.drop k).map f).length, c],
        (A.rows.map fun r => r.take k ++ (r.drop k).map f).flatten⟩ := by
    simp [NDArray.mapColsFrom, h.1, hlen]
  refine ⟨⟨by simp [NDArray.mapColsFrom, h.1], ?_⟩, ?_⟩
  · simp only [NDArray.mapColsFrom]
    rw [flatten_length_const _ c hall]
    simp [hlen]
  · rw [hmk, rows_mk_flatten _ c hall]

theorem mapColsUpTo_ok (A : NDArray) (n c k : Nat) (f : ℚ → ℚ) (h : A.wf2 n c) :
    (A.mapColsUpTo k f).wf2 n c ∧
      (A.mapColsUpTo k f).rows = A.rows.map fun r => (r.take k).map f ++ r.drop k := by
  have hlen : A.rows.length = n := wf2_rows_length h
  have hall : ∀ r ∈ A.rows.map (fun r => (r.take k).map f ++ r.drop k), r.length = c := by
    intro r hr
    rcases List.mem_map.mp hr with ⟨s, hs, rfl⟩
    have := wf2_rows_mem h s hs
    simp [List.length_take, List.length_drop, this]
    omega
  have hmk : A.mapColsUpTo k f =
      ⟨[(A.rows.map fun r => (r.take k).map f ++ r.drop k).length, c],
        (A.rows.map fun r => (r.take k).map f ++ r.drop k).flatten⟩ := by
    simp [NDArray.mapColsUpTo, h.1, hlen]
  refine ⟨⟨by simp [NDArray.mapColsUpTo, h.1], ?_⟩, ?_⟩
  · simp only [NDArray.mapColsUpTo]
    rw [flatten_length_const _ c hall]
    simp [hlen]
  · rw [hmk, rows_mk_flatten _ c hall]

theorem tensor2Row_length (r : List ℚ) (h : r.length = 6) :
    (tensor2Row r).length = 6 := by
  rcases r with _ | ⟨a, _ | ⟨b, _ | ⟨c, _ | ⟨d, _ | ⟨e, _ | ⟨f, _ | ⟨g, t⟩⟩⟩⟩⟩⟩⟩ <;>
    simp_all [tensor2Row]

theorem tensor2_ok (A : NDArray) (n : Nat) (h : A.wf2 n 6) :
    tensor2 A = .ok ⟨[n, 6], (A.rows.map tensor2Row).flatten⟩ ∧
      (⟨[n, 6], (A.rows.map tensor2Row).flatten⟩ : NDArray).wf2 n 6 ∧
      (⟨[n, 6], (A.rows.map tensor2Row).flatten⟩ : NDArray).rows =
        A.rows.map tensor2Row := by
  have hlen : A.rows.length = n := wf2_rows_length h
  have hall : ∀ r ∈ A.rows.map tensor2Row, r.length = 6 := by
    intro r hr
    rcases List.mem_map.mp hr with ⟨s, hs, rfl⟩
    exact tensor2Row_length s (wf2_rows_mem h s hs)
  refine ⟨?_, ⟨rfl, ?_⟩, ?_⟩
  · simp [tensor2, h.1, NDArray.ndim, NDArray.ncols]
  · rw [flatten_length_const _ 6 hall]
    simp [hlen]
  · have : (⟨[n, 6], (A.rows.map tensor2Row).flatten⟩ : NDArray) =
        ⟨[(A.rows.map tensor2Row).length, 6], (A.rows.map tensor2Row).flatten⟩ := by
      simp [hlen]
    rw [this, rows_mk_flatten _ 6 hall]

theorem rowShearHalf_length (r : List ℚ) : (rowShearHalf r).length = r.length := by
  simp [rowShearHalf, List.length_take, List.length_drop]
  omega

theorem rowAddIdentity_length (r : List ℚ) : (rowAddIdentity r).length = r.length := by
  simp [rowAddIdentity, List.length_take, List.length_drop]
  omega

theorem rowSubIdentity_length (r : List ℚ) : (rowSubIdentity r).length = r.length := by
  simp [rowSubIdentity, List.length_take, List.length_drop]
  omega

theorem rowHalfNormals_length (r : List ℚ) : (rowHalfNormals r).length = r.length := by
  simp [rowHalfNormals, List.length_take, List.length_drop]
  omega

theorem greenRow_length (r : List ℚ) (h : r.length = 6) :
    (greenRow r).length = 6 := by
  simp [greenRow, rowHalfNormals_length, rowSubIdentity_length]
  rw [tensor2Row_length]
  rw [rowAddIdentity_length, rowShearHalf_length, h]

/-- An array built from `n` rows of length `c` is well formed and its rows are
those rows. -/
theorem mk_rows_wf (rs : List (List ℚ)) (n c : Nat) (hn : rs.length = n)
    (hall : ∀ r ∈ rs, r.length = c) :
    (⟨[n, c], rs.flatten⟩ : NDArray).wf2 n c ∧
      (⟨[n, c], rs.flatten⟩ : NDArray).rows = rs := by
  subst hn
  exact ⟨⟨rfl, flatten_length_const rs c hall⟩, rows_mk_flatten rs c hall⟩

theorem mapColsFrom_eq (A : NDArray) (n c k : Nat) (f : ℚ → ℚ) (h : A.wf2 n c) :
    A.mapColsFrom k f =
      ⟨[n, c], (A.rows.map fun r => r.take k ++ (r.drop k).map f).flatten⟩ := by
  simp [NDArray.mapColsFrom, h.1]

theorem mapColsUpTo_eq (A : NDArray) (n c k : Nat) (f : ℚ → ℚ) (h : A.wf2 n c) :
    A.mapColsUpTo k f =
      ⟨[n, c], (A.rows.map fun r => (r.take k).map f ++ r.drop k).flatten⟩ := by
  simp [NDArray.mapColsUpTo, h.1]

/-- `green` on a well-formed `(n, 6)` batch succeeds and acts row by row as
`greenRow`; the result is again a well-formed `(n, 6)` batch with those
rows. -/
theorem green_ok (A : NDArray) (n : Nat) (h : A.wf2 n 6) :
    green A = .ok ⟨[n, 6], (A.rows.map greenRow).flatten⟩ ∧
      (⟨[n, 6], (A.rows.map greenRow).flatten⟩ : NDArray).wf2 n 6 ∧
      (⟨[n, 6], (A.rows.map greenRow).flatten⟩ : NDArray).rows =
        A.rows.map greenRow := by
  have hnd : A.ndim = 2 := by simp [NDArray.ndim, h.1]
  have hnc : A.ncols = 6 := by simp [NDArray.ncols, h.1]
  have hrlen := wf2_rows_length h
  have hrmem := wf2_rows_mem h
  -- rows after each stage
  have hall1 : ∀ r ∈ A.rows.map rowShearHalf, r.length = 6 := by
    intro r hr
    rcases List.mem_map.mp hr with ⟨s, hs, rfl⟩
    rw [rowShearHalf_length, hrmem s hs]
  have hall2 : ∀ r ∈ A.rows.map fun r => rowAddIdentity (rowShearHalf r), r.length = 6 := by
    intro r hr
    rcases List.mem_map.mp hr with ⟨s, hs, rfl⟩
    rw [rowAddIdentity_length, rowShearHalf_length, hrmem s hs]
  have hall3 : ∀ r ∈ A.rows.map fun r => tensor2Row (rowAddIdentity (rowShearHalf r)),
      r.length = 6 := by
    intro r hr
    rcases List.mem_map.mp hr with ⟨s, hs, rfl⟩
    rw [tensor2Row_length]
    rw [rowAddIdentity_length, rowShearHalf_length, hrmem s hs]
  have hall4 : ∀ r ∈ A.rows.map
      fun r => rowSubIdentity (tensor2Row (rowAddIdentity (rowShearHalf r))), r.length = 6 := by
    intro r hr
    rcases List.mem_map.mp hr with ⟨s, hs, rfl⟩
    rw [rowSubIdentity_length]
    rw [tensor2Row_length]
    rw [rowAddIdentity_length, rowShearHalf_length, hrmem s hs]
  have hallg : ∀ r ∈ A.rows.map greenRow, r.length = 6 := by
    intro r hr
    rcases List.mem_map.mp hr with ⟨s, hs, rfl⟩
    exact greenRow_length s (hrmem s hs)
  obtain ⟨w1, r1⟩ := mk_rows_wf (A.rows.map rowShearHalf) n 6 (by simp [hrlen]) hall1
  obtain ⟨w2, r2⟩ := mk_rows_wf (A.rows.map fun r => rowAddIdentity (rowShearHalf r)) n 6
    (by simp [hrlen]) hall2
  obtain ⟨w3, r3⟩ := mk_rows_wf
    (A.rows.map fun r => tensor2Row (rowAddIdentity (rowShearHalf r))) n 6
    (by simp [hrlen]) hall3
  obtain ⟨w4, r4⟩ := mk_rows_wf
    (A.rows.map fun r => rowSubIdentity (tensor2Row (rowAddIdentity (rowShearHalf r)))) n 6
    (by simp [hrlen]) hall4
  obtain ⟨wg, rg⟩ := mk_rows_wf (A.rows.map greenRow) n 6 (by simp [hrlen]) hallg
  have e1 : A.mapColsFrom 3 (fun x => x / 2) =
      ⟨[n, 6], (A.rows.map rowShearHalf).flatten⟩ :=
    mapColsFrom_eq A n 6 3 _ h
  have e2 : (⟨[n, 6], (A.rows.map rowShearHalf).flatten⟩ : NDArray).mapColsUpTo 3
        (fun x => x + 1) =
      ⟨[n, 6], (A.rows.map fun r => rowAddIdentity (rowShearHalf r)).flatten⟩ := by
    rw [mapColsUpTo_eq _ n 6 3 _ w1, r1]
    simp only [List.map_map]
    rfl
  have e3 : tensor2
        ⟨[n, 6], (A.rows.map fun r => rowAddIdentity (rowShearHalf r)).flatten⟩ =
      .ok ⟨[n, 6],
        (A.rows.map fun r => tensor2Row (rowAddIdentity (rowShearHalf r))).flatten⟩ := by
    obtain ⟨ht, -, -⟩ := tensor2_ok _ n w2
    rw [ht, r2]
    simp only [List.map_map]
    rfl
  have e4 : (⟨[n, 6],
        (A.rows.map fun r => tensor2Row (rowAddIdentity (rowShearHalf r))).flatten⟩ :
          NDArray).mapColsUpTo 3 (fun x => x - 1) =
      ⟨[n, 6],
        (A.rows.map fun r =>
          rowSubIdentity (tensor2Row (rowAddIdentity (rowShearHalf r)))).flatten⟩ := by
    rw [mapColsUpTo_eq _ n 6 3 _ w3, r3]
    simp only [List.map_map]
    rfl
  have e5 : (⟨[n, 6],
        (A.rows.map fun r =>
          rowSubIdentity (tensor2Row (rowAddIdentity (rowShearHalf r)))).flatten⟩ :
          NDArray).mapColsUpTo 3 (fun x => x / 2) =
      ⟨[n, 6], (A.rows.map greenRow).flatten⟩ := by
    rw [mapColsUpTo_eq _ n 6 3 _ w4, r4]
    simp only [List.map_map]
    rfl
  refine ⟨?_, wg, rg⟩
  have hbody : green A =
      match tensor2 ((A.mapColsFrom 3 fun x => x / 2).mapColsUpTo 3 fun x => x + 1) with
      | .error e => .error e
      | .ok W => .ok ((W.mapColsUpTo 3 fun x => x - 1).mapColsUpTo 3 fun x => x / 2) := by
    simp [green, hnd, hnc]
  rw [hbody, e1, e2, e3]
  exact congrArg Except.ok (by rw [e4, e5])


@[simp] theorem NDArray.mapColsFrom_shape (A : NDArray) (k : Nat) (f : ℚ → ℚ) :
    (A.mapColsFrom k f).shape = A.shape := rfl

@[simp] theorem NDArray.mapColsUpTo_shape (A : NDArray) (k : Nat) (f : ℚ → ℚ) :
    (A.mapColsUpTo k f).shape = A.shape := rfl

@[simp] theorem NDArray.mapColsFrom_ndim (A : NDArray) (k : Nat) (f : ℚ → ℚ) :
    (A.mapColsFrom k f).ndim = A.ndim := rfl

@[simp] theorem NDArray.mapColsUpTo_ndim (A : NDArray) (k : Nat) (f : ℚ → ℚ) :
    (A.mapColsUpTo k f).ndim = A.ndim := rfl

@[simp] theorem NDArray.mapColsFrom_ncols (A : NDArray) (k : Nat) (f : ℚ → ℚ) :
    (A.mapColsFrom k f).ncols = A.ncols := rfl

@[simp] theorem NDArray.mapColsUpTo_ncols (A : NDArray) (k : Nat) (f : ℚ → ℚ) :
    (A.mapColsUpTo k f).ncols = A.ncols := rfl

theorem zeros_rows (n c : Nat) :
    (NDArray.zeros n c).rows = List.replicate n (List.replicate c (0 : ℚ)) := by
  apply List.eq_replicate_iff.2
  constructor
  · simp [NDArray.rows, NDArray.zeros]
  · intro b hb
    rcases List.mem_map.mp hb with ⟨i, hi, rfl⟩
    have hi' : i < n := by
      simpa [NDArray.zeros] using List.mem_range.mp hi
    have hcle : c ≤ n * c - i * c := by
      rw [← Nat.sub_mul]
      exact Nat.le_mul_of_pos_left c (by omega)
    simp [NDArray.zeros, NDArray.ncols, List.drop_replicate, List.take_replicate]
    omega

theorem flatten_replicate_zero (n c : Nat) :
    (List.replicate n (List.replicate c (0 : ℚ))).flatten = List.replicate (n * c) 0 := by
  induction n with
  | zero => simp
  | succ m ih =>
    rw [List.replicate_succ, List.flatten_cons, ih, Nat.succ_mul, Nat.add_comm,
      List.replicate_add]

theorem greenRow_zero : greenRow (List.replicate 6 (0 : ℚ)) = List.replicate 6 0 := by
  show greenRow [0, 0, 0, 0, 0, 0] = [0, 0, 0, 0, 0, 0]
  norm_num [greenRow, rowShearHalf, rowAddIdentity, rowSubIdentity, rowHalfNormals,
    tensor2Row]

/-- C10: `green` does not mutate its argument. Running `green` through the
explicit-storage model, the reference holding the input still holds exactly
the input values in the final store, and the result reference holds exactly
what the functional `green` returns. -/
theorem greenStore_no_mutation (NE : NDArray) (hnd : NE.ndim = 2)
    (hnc : NE.ncols = 6) :
    ∃ s : Store, ∃ w : Nat, greenStore NE = .ok (s, 0, w) ∧
      s.read 0 = NE ∧ green NE = .ok (s.read w) := by
  refine ⟨⟨[NE,
    (NE.mapColsFrom 3 fun x => x / 2).mapColsUpTo 3 fun x => x + 1,
    ((⟨NE.shape,
        (((NE.mapColsFrom 3 fun x => x / 2).mapColsUpTo 3 fun x => x + 1).rows.map
          tensor2Row).flatten⟩ : NDArray).mapColsUpTo 3 fun x => x - 1).mapColsUpTo 3
            fun x => x / 2]⟩, 2, ?_, ?_, ?_⟩
  · simp [greenStore, tensor2Store, Store.alloc, Store.read, Store.write, hnd, hnc]
  · simp [Store.read]
  · simp [green, tensor2, Store.read, hnd, hnc]

/-- C1: for every 2-dimensional batch `NE` of shape `(N,6)` in
engineering-shear convention, `green NE` is computed by exactly these steps:
divide the three shear components (indices 3,4,5) by 2; add 1.0 to each of
the three normal components (indices 0,1,2); apply the symmetric
self-product `tensor2`; subtract 1.0 from the three normal components of
the result; divide those three normal components by 2; leave the shear
components of the self-product unchanged. -/
theorem green_steps (NE : NDArray) (n : Nat) (h : NE.wf2 n 6) :
    green NE = .ok ⟨[n, 6],
      (NE.rows.map fun r =>
        rowHalfNormals (rowSubIdentity (tensor2Row (rowAddIdentity
          (rowShearHalf r))))).flatten⟩ :=
  (green_ok NE n h).1

/-- Witness for C1 at the concrete batch `[(1,2,3,4,5,6)]`. -/
theorem green_steps_witness :
    (⟨[1, 6], [1, 2, 3, 4, 5, 6]⟩ : NDArray).wf2 1 6 ∧
      green ⟨[1, 6], [1, 2, 3, 4, 5, 6]⟩ = .ok ⟨[1, 6],
        ((⟨[1, 6], [1, 2, 3, 4, 5, 6]⟩ : NDArray).rows.map fun r =>
          rowHalfNormals (rowSubIdentity (tensor2Row (rowAddIdentity
            (rowShearHalf r))))).flatten⟩ :=
  ⟨⟨rfl, rfl⟩, green_steps ⟨[1, 6], [1, 2, 3, 4, 5, 6]⟩ 1 ⟨rfl, rfl⟩⟩

/-- C2: for every 2-dimensional `(N,6)` batch `A` in tensor-component
convention, each row of `tensor2 A` is the packed self-product of that row,
and the packed self-product is given by exactly the six stated formulas. -/
theorem tensor2_rows_formula (A : NDArray) (n : Nat) (h : A.wf2 n 6) :
    (∃ B, tensor2 A = .ok B ∧ B.rows = A.rows.map tensor2Row) ∧
      ∀ a11 a22 a33 a12 a13 a23 : ℚ,
        tensor2Row [a11, a22, a33, a12, a13, a23] =
          [a11*a11 + a12*a12 + a13*a13,
           a12*a12 + a22*a22 + a23*a23,
           a13*a13 + a23*a23 + a33*a33,
           a11*a12 + a12*a22 + a13*a23,
           a11*a13 + a12*a23 + a13*a33,
           a12*a13 + a22*a23 + a23*a33] := by
  obtain ⟨ht, -, hrows⟩ := tensor2_ok A n h
  exact ⟨⟨_, ht, hrows⟩, fun _ _ _ _ _ _ => rfl⟩

/-- Witness for C2 at the concrete batch `[(1,2,3,4,5,6)]`. -/
theorem tensor2_rows_formula_witness :
    (⟨[1, 6], [1, 2, 3, 4, 5, 6]⟩ : NDArray).wf2 1 6 ∧
      ((∃ B, tensor2 ⟨[1, 6], [1, 2, 3, 4, 5, 6]⟩ = .ok B ∧
        B.rows = (⟨[1, 6], [1, 2, 3, 4, 5, 6]⟩ : NDArray).rows.map tensor2Row) ∧
      ∀ a11 a22 a33 a12 a13 a23 : ℚ,
        tensor2Row [a11, a22, a33, a12, a13, a23] =
          [a11*a11 + a12*a12 + a13*a13,
           a12*a12 + a22*a22 + a23*a23,
           a13*a13 + a23*a23 + a33*a33,
           a11*a12 + a12*a22 + a13*a23,
           a11*a13 + a12*a23 + a13*a33,
           a12*a13 + a22*a23 + a23*a33]) :=
  ⟨⟨rfl, rfl⟩, tensor2_rows_formula ⟨[1, 6], [1, 2, 3, 4, 5, 6]⟩ 1 ⟨rfl, rfl⟩⟩

/-- C3: for every 2-dimensional `(N,4)` batch of quaternion rows ordered
`(x, y, z, w)`, each 3×3 output matrix of `quat2matrix` is exactly the
standard quaternion-to-rotation-matrix formula applied to that row, with no
normalization (the formula holds for every quaternion, unit or not). -/
theorem quat2matrix_formula (A : NDArray) (n : Nat) (h : A.shape = [n, 4]) :
    quat2matrix A = .ok ⟨[n, 3, 3], (A.rows.map quatRow).flatten⟩ ∧
      ∀ x y z w : ℚ, quatRow [x, y, z, w] =
        [1 - 2*(y^2 + z^2), 2*(x*y - w*z), 2*(x*z + w*y),
         2*(x*y + w*z), 1 - 2*(x^2 + z^2), 2*(y*z - w*x),
         2*(x*z - w*y), 2*(y*z + w*x), 1 - 2*(x^2 + y^2)] := by
  constructor
  · simp [quat2matrix, NDArray.ndim, NDArray.ncols, NDArray.nrows, h]
  · intro x y z w
    simp only [quatRow, List.cons.injEq, and_true]
    refine ⟨by ring, by ring, by ring, by ring, by ring, by ring, by ring, by ring,
      by ring⟩

/-- Witness for C3 at the identity quaternion batch `[(0,0,0,1)]`. -/
theorem quat2matrix_formula_witness :
    (⟨[1, 4], [0, 0, 0, 1]⟩ : NDArray).shape = [1, 4] ∧
      (quat2matrix ⟨[1, 4], [0, 0, 0, 1]⟩ =
        .ok ⟨[1, 3, 3], ((⟨[1, 4], [0, 0, 0, 1]⟩ : NDArray).rows.map quatRow).flatten⟩ ∧
      ∀ x y z w : ℚ, quatRow [x, y, z, w] =
        [1 - 2*(y^2 + z^2), 2*(x*y - w*z), 2*(x*z + w*y),
         2*(x*y + w*z), 1 - 2*(x^2 + z^2), 2*(y*z - w*x),
         2*(x*z - w*y), 2*(y*z + w*x), 1 - 2*(x^2 + y^2)]) :=
  ⟨rfl, quat2matrix_formula ⟨[1, 4], [0, 0, 0, 1]⟩ 1 rfl⟩

/-- C4: `green` on the single-row batch `[(1,2,3,4,5,6)]` returns exactly
`[(6.625, 10.5, 15.125, 17.5, 21, 26)]`. -/
theorem green_example :
    green ⟨[1, 6], [1, 2, 3, 4, 5, 6]⟩ =
      .ok ⟨[1, 6], [6.625, 10.5, 15.125, 17.5, 21, 26]⟩ := by
  norm_num [green, tensor2, tensor2Row, NDArray.mapColsFrom, NDArray.mapColsUpTo,
    NDArray.rows, NDArray.ndim, NDArray.ncols, NDArray.nrows, List.range_succ]

/-- C5: for every `N`, `green` maps the all-zero `(N,6)` batch to the
all-zero `(N,6)` batch exactly. -/
theorem green_zeros (n : Nat) :
    green (NDArray.zeros n 6) = .ok (NDArray.zeros n 6) := by
  have hwf : (NDArray.zeros n 6).wf2 n 6 := ⟨rfl, by simp [NDArray.zeros]⟩
  obtain ⟨hg, -, -⟩ := green_ok (NDArray.zeros n 6) n hwf
  rw [hg, zeros_rows, List.map_replicate, greenRow_zero, flatten_replicate_zero]
  rfl

/-- C6: for a unit quaternion `(x, y, z, w)`, the matrix that `quat2matrix`
produces for `(x, y, z, -w)` is the transpose of the one it produces for
`(x, y, z, w)`, and is its two-sided inverse. -/
theorem quat_negw_inverse (x y z w : ℚ) (h : x^2 + y^2 + z^2 + w^2 = 1) :
    (∀ i j : Fin 3, quatMatAt x y z (-w) i j = quatMatAt x y z w j i) ∧
    (∀ i j : Fin 3, quatMatMulAt x y z (-w) x y z w i j =
      if i = j then 1 else 0) ∧
    (∀ i j : Fin 3, quatMatMulAt x y z w x y z (-w) i j =
      if i = j then 1 else 0) := by
  refine ⟨?_, ?_, ?_⟩ <;> intro i j <;> fin_cases i <;> fin_cases j <;>
    simp [quatMatAt, quatMatMulAt, quatRow, List.getD, Fin.ext_iff] <;>
    first
      | ring1
      | linear_combination (4*(y^2 + z^2)) * h
      | linear_combination (4*(x^2 + z^2)) * h
      | linear_combination (4*(x^2 + y^2)) * h
      | linear_combination (-4*x*y) * h
      | linear_combination (-4*x*z) * h
      | linear_combination (-4*y*z) * h

/-- Witness for C6 at the identity quaternion `(0, 0, 0, 1)`. -/
theorem quat_negw_inverse_witness :
    (0:ℚ)^2 + 0^2 + 0^2 + 1^2 = 1 ∧
    ((∀ i j : Fin 3, quatMatAt 0 0 0 (-1) i j = quatMatAt 0 0 0 1 j i) ∧
    (∀ i j : Fin 3, quatMatMulAt 0 0 0 (-1) 0 0 0 1 i j =
      if i = j then 1 else 0) ∧
    (∀ i j : Fin 3, quatMatMulAt 0 0 0 1 0 0 0 (-1) i j =
      if i = j then 1 else 0)) :=
  ⟨by norm_num, by
    have := quat_negw_inverse 0 0 0 1 (by norm_num)
    simpa using this⟩

/-- C7: an input that is not a 2-dimensional batch, or whose rows do not have
exactly 6 components (for `tensor2` and `green`) or exactly 4 components
(for `quat2matrix`), fails with the corresponding assertion error rather
than returning a result; in particular tensor batches with 5 or 7 columns
and quaternion batches with 3 or 5 columns are rejected. -/
theorem shape_validation :
    (∀ A : NDArray, A.ndim ≠ 2 →
      tensor2 A = .error "Data must be a 2D array of tensors") ∧
    (∀ A : NDArray, A.ndim = 2 → A.ncols ≠ 6 →
      tensor2 A = .error "Data elements must be in Abaqus symmetric tensor format") ∧
    (∀ A : NDArray, A.ndim ≠ 2 →
      green A = .error "NEarray must be a 2D array of tensors") ∧
    (∀ A : NDArray, A.ndim = 2 → A.ncols ≠ 6 →
      green A = .error "NEarray elements must be in Abaqus symmetric tensor format") ∧
    (∀ A : NDArray, A.ndim ≠ 2 → quat2matrix A = .error "Must be a 2D array") ∧
    (∀ A : NDArray, A.ndim = 2 → A.ncols ≠ 4 →
      quat2matrix A = .error "Must be an array of quaternions") ∧
    (∃ e, tensor2 ⟨[1, 5], [1, 2, 3, 4, 5]⟩ = .error e) ∧
    (∃ e, tensor2 ⟨[1, 7], [1, 2, 3, 4, 5, 6, 7]⟩ = .error e) ∧
    (∃ e, quat2matrix ⟨[1, 3], [1, 2, 3]⟩ = .error e) ∧
    (∃ e, quat2matrix ⟨[1, 5], [1, 2, 3, 4, 5]⟩ = .error e) ∧
    (∃ e, green ⟨[1, 5], [1, 2, 3, 4, 5]⟩ = .error e) ∧
    (∃ e, green ⟨[1, 7], [1, 2, 3, 4, 5, 6, 7]⟩ = .error e) := by
  refine ⟨fun A h => by simp [tensor2, h], fun A h h6 => by simp [tensor2, h, h6],
    fun A h => by simp [green, h], fun A h h6 => by simp [green, h, h6],
    fun A h => by simp [quat2matrix, h], fun A h h4 => by simp [quat2matrix, h, h4],
    ⟨_, rfl⟩, ⟨_, rfl⟩, ⟨_, rfl⟩, ⟨_, rfl⟩, ⟨_, rfl⟩, ⟨_, rfl⟩⟩

/-- Witness for C7: a 1-dimensional input is rejected by `tensor2`. -/
theorem shape_validation_witness :
    (⟨[5], [1, 2, 3, 4, 5]⟩ : NDArray).ndim ≠ 2 ∧
      tensor2 ⟨[5], [1, 2, 3, 4, 5]⟩ = .error "Data must be a 2D array of tensors" :=
  ⟨by decide, shape_validation.1 ⟨[5], [1, 2, 3, 4, 5]⟩ (by decide)⟩

/-- C8: for every 2-dimensional input batch of shape `(N,6)`, `green`
succeeds and the returned batch has exactly the same shape `(N,6)`. -/
theorem green_shape (A : NDArray) (n : Nat) (h : A.shape = [n, 6]) :
    ∃ B, green A = .ok B ∧ B.shape = [n, 6] := by
  have hnd : A.ndim = 2 := by simp [NDArray.ndim, h]
  have hnc : A.ncols = 6 := by simp [NDArray.ncols, h]
  refine ⟨((⟨A.shape,
      (((A.mapColsFrom 3 fun x => x / 2).mapColsUpTo 3 fun x => x + 1).rows.map
        tensor2Row).flatten⟩ : NDArray).mapColsUpTo 3 fun x => x - 1).mapColsUpTo 3
          (fun x => x / 2), ?_, ?_⟩
  · simp [green, tensor2, hnd, hnc]
  · simp [h]

/-- Witness for C8 at the concrete batch `[(1,2,3,4,5,6)]`. -/
theorem green_shape_witness :
    (⟨[1, 6], [1, 2, 3, 4, 5, 6]⟩ : NDArray).shape = [1, 6] ∧
      ∃ B, green ⟨[1, 6], [1, 2, 3, 4, 5, 6]⟩ = .ok B ∧ B.shape = [1, 6] :=
  ⟨rfl, green_shape ⟨[1, 6], [1, 2, 3, 4, 5, 6]⟩ 1 rfl⟩

/-- C9: on every 2-dimensional `(N,6)` batch, the 6-term symmetric shortcut
of `tensor2` agrees with the reference full 3×3 matrix multiply: each output
row is the packing of `M · M` where `M` is the symmetric matrix unpacked
from the corresponding input row. -/
theorem tensor2_refines_matmul (A : NDArray) (n : Nat) (h : A.wf2 n 6) :
    (∃ B, tensor2 A = .ok B ∧
      B.rows = A.rows.map fun r => pack3 (matmul3 (unpack3 r) (unpack3 r))) ∧
    ∀ r : List ℚ, r.length = 6 →
      tensor2Row r = pack3 (matmul3 (unpack3 r) (unpack3 r)) := by
  have key : ∀ r : List ℚ, r.length = 6 →
      tensor2Row r = pack3 (matmul3 (unpack3 r) (unpack3 r)) := by
    intro r hr
    rcases r with _ | ⟨a, _ | ⟨b, _ | ⟨c, _ | ⟨d, _ | ⟨e, _ | ⟨f, _ | ⟨g, t⟩⟩⟩⟩⟩⟩⟩ <;>
      simp_all [tensor2Row, pack3, matmul3, unpack3, List.getD]
  obtain ⟨ht, -, hrows⟩ := tensor2_ok A n h
  refine ⟨⟨_, ht, ?_⟩, key⟩
  rw [hrows]
  exact List.map_congr_left fun r hr => key r (wf2_rows_mem h r hr)

/-- Witness for C9 at the concrete batch `[(1,2,3,4,5,6)]`. -/
theorem tensor2_refines_matmul_witness :
    (⟨[1, 6], [1, 2, 3, 4, 5, 6]⟩ : NDArray).wf2 1 6 ∧
      ((∃ B, tensor2 ⟨[1, 6], [1, 2, 3, 4, 5, 6]⟩ = .ok B ∧
        B.rows = (⟨[1, 6], [1, 2, 3, 4, 5, 6]⟩ : NDArray).rows.map
          fun r => pack3 (matmul3 (unpack3 r) (unpack3 r))) ∧
      ∀ r : List ℚ, r.length = 6 →
        tensor2Row r = pack3 (matmul3 (unpack3 r) (unpack3 r))) :=
  ⟨⟨rfl, rfl⟩, tensor2_refines_matmul ⟨[1, 6], [1, 2, 3, 4, 5, 6]⟩ 1 ⟨rfl, rfl⟩⟩

/-- Witness for C10 at the concrete batch `[(1,2,3,4,5,6)]`. -/
theorem greenStore_no_mutation_witness :
    (⟨[1, 6], [1, 2, 3, 4, 5, 6]⟩ : NDArray).ndim = 2 ∧
    (⟨[1, 6], [1, 2, 3, 4, 5, 6]⟩ : NDArray).ncols = 6 ∧
    ∃ s : Store, ∃ w : Nat,
      greenStore ⟨[1, 6], [1, 2, 3, 4, 5, 6]⟩ = .ok (s, 0, w) ∧
      s.read 0 = ⟨[1, 6], [1, 2, 3, 4, 5, 6]⟩ ∧
      green ⟨[1, 6], [1, 2, 3, 4, 5, 6]⟩ = .ok (s.read w) :=
  ⟨rfl, rfl, greenStore_no_mutation ⟨[1, 6], [1, 2, 3, 4, 5, 6]⟩ rfl rfl⟩
